import Mathlib

/-!
Verification of the local authentication subsystem of the ulink-mcp-server
repository: the browser OAuth PKCE flow (src/auth/oauth.ts), the encrypted
token store (src/auth/token-store.ts) and the authenticated request client
(src/client/ulink-api.ts).

The TypeScript sources are shallowly embedded below.  JavaScript numbers are
modelled by `JSNum` (an integer or NaN, with JS comparison semantics: every
comparison against NaN is false).  Node/JS builtins that the sources call are
modelled at the level of their contracts, each with a doc comment explaining
the modelling choice:
  * `Buffer.toString "base64"` / `Buffer.from(_, "base64")` are implemented as
    a genuine base64 codec over byte lists;
  * UTF-8 encoding of strings is implemented as a genuine UTF-8 codec over
    `Char` code points;
  * `JSON.stringify` / `JSON.parse` of the inner auth record are implemented
    as a concrete serializer/strict parser for that record shape;
  * AES-256-GCM is modelled as an AEAD contract: the stored value is
    base64(iv) : base64(tag) : base64(ciphertext), where the tag binds the
    derived key so that decryption with a different machine key fails closed,
    and the ciphertext is the byte image of the plaintext (the keystream of
    the real cipher is not modelled; no claim depends on ciphertext secrecy);
  * `scryptSync(material, salt, 32)` is modelled as an injective key
    derivation (the material string itself stands for the derived key);
  * `Date.prototype.toISOString` / `new Date(string).getTime()` are modelled
    as an injective rendering of the epoch-millisecond value with an exact
    round trip, which is the behaviour of the real pair on the representable
    range, and NaN on unparsable strings;
  * the persisted config file is modelled structurally: a JSON document with
    the two auth fields plus opaque other fields, `Option` for a missing or
    unparsable file.
-/

namespace Ulink

/-- JavaScript number restricted to what the authentication subsystem
computes with: an exact integer (all values arising here are integral and
within the double-exact range) or NaN. -/
inductive JSNum where
  | nan : JSNum
  | num : Int → JSNum
deriving DecidableEq, Repr

namespace JSNum

/-- JS addition: NaN propagates. -/
def add : JSNum → JSNum → JSNum
  | num a, num b => num (a + b)
  | _, _ => nan

/-- JS subtraction: NaN propagates. -/
def sub : JSNum → JSNum → JSNum
  | num a, num b => num (a - b)
  | _, _ => nan

/-- JS multiplication: NaN propagates. -/
def mul : JSNum → JSNum → JSNum
  | num a, num b => num (a * b)
  | _, _ => nan

/-- JS `<`: any comparison involving NaN is false. -/
def lt : JSNum → JSNum → Bool
  | num a, num b => decide (a < b)
  | _, _ => false

/-- JS `<=`: any comparison involving NaN is false. -/
def le : JSNum → JSNum → Bool
  | num a, num b => decide (a ≤ b)
  | _, _ => false

/-- `Number.isNaN`. -/
def isNaN : JSNum → Bool
  | nan => true
  | num _ => false

end JSNum

/-- `OAuthTokens` (src/auth/oauth.ts): `{ accessToken, refreshToken,
expiresAt }` with `expiresAt` in epoch milliseconds.  `expiresAt` is a
`JSNum` because the browser flow can produce NaN (see claim C10). -/
structure OAuthTokens where
  accessToken : String
  refreshToken : String
  expiresAt : JSNum
deriving DecidableEq, Repr

/-- JS `parseInt(s, 10)`: skip leading whitespace, optional sign, then the
longest prefix of decimal digits; NaN when that prefix is empty. -/
def parseIntJS (s : String) : JSNum :=
  let cs := s.toList.dropWhile (fun c => c = ' ' ∨ c = '\t' ∨ c = '\n' ∨ c = '\r')
  let signAndRest : Int × List Char :=
    match cs with
    | '-' :: rest => (-1, rest)
    | '+' :: rest => (1, rest)
    | rest => (1, rest)
  let digits := signAndRest.2.takeWhile (fun c => c.isDigit)
  if digits.isEmpty then JSNum.nan
  else JSNum.num (signAndRest.1 * (Int.ofNat (digits.foldl (fun acc c => acc * 10 + (c.toNat - 48)) 0)))

/-! ## Client-side rate limiter (src/client/ulink-api.ts, lines 27-44)

The mutable module array `requestTimestamps` is threaded explicitly as a
`List Int`; `Date.now()` is the explicit parameter `now`. -/

/-- `RATE_LIMIT_MAX` from src/client/ulink-api.ts. -/
def RATE_LIMIT_MAX : Nat := 30

/-- `RATE_LIMIT_WINDOW_MS` from src/client/ulink-api.ts. -/
def RATE_LIMIT_WINDOW_MS : Int := 10000

/-- The `while` loop of `enforceRateLimit`: repeatedly `shift` the first
timestamp while it satisfies `t <= now - RATE_LIMIT_WINDOW_MS`. -/
def pruneTimestamps (now : Int) : List Int → List Int
  | [] => []
  | t :: rest => if t ≤ now - RATE_LIMIT_WINDOW_MS then pruneTimestamps now rest else t :: rest

/-- `enforceRateLimit` (src/client/ulink-api.ts): prune, then either throw a
429 `ApiError` (returning the pruned array, since the prune mutated the
shared array before the throw) or push `now`.  `Except` models the throw. -/
def enforceRateLimit (now : Int) (requestTimestamps : List Int) : Except (List Int) (List Int) :=
  let pruned := pruneTimestamps now requestTimestamps
  if RATE_LIMIT_MAX ≤ pruned.length then
    Except.error pruned
  else
    Except.ok (pruned ++ [now])

/-- The rate-limit gate of `apiRequest` (src/client/ulink-api.ts line 111):
`enforceRateLimit()` runs before any auth resolution or network dispatch, so
a rate-limit throw makes no network call.  The returned Bool records whether
the body of `apiRequest` past the gate (which performs the fetch) runs. -/
def apiRequestGate (now : Int) (requestTimestamps : List Int) :
    List Int × Bool :=
  match enforceRateLimit now requestTimestamps with
  | Except.error st => (st, false)
  | Except.ok st => (st, true)

/-- Number of recorded timestamps lying within the trailing window at `now`
(strictly newer than `now - RATE_LIMIT_WINDOW_MS`). -/
def inWindowCount (now : Int) (l : List Int) : Nat :=
  (l.filter (fun t => now - RATE_LIMIT_WINDOW_MS < t)).length

/-! ## Base64 codec

Model of `Buffer.prototype.toString("base64")` and `Buffer.from(_, "base64")`
as used by the token store to encode the iv, auth tag and ciphertext.  This
is real base64 (RFC 4648 alphabet with `=` padding) over byte lists. -/

/-- The base64 character for a sextet value (0..63). -/
def sextetChar (n : Nat) : Char :=
  if n < 26 then Char.ofNat (65 + n)
  else if n < 52 then Char.ofNat (97 + (n - 26))
  else if n < 62 then Char.ofNat (48 + (n - 52))
  else if n = 62 then '+'
  else '/'

/-- The sextet value of a base64 character, none for non-alphabet chars. -/
def sextetVal (c : Char) : Option Nat :=
  let k := c.toNat
  if 65 ≤ k ∧ k ≤ 90 then some (k - 65)
  else if 97 ≤ k ∧ k ≤ 122 then some (k - 97 + 26)
  else if 48 ≤ k ∧ k ≤ 57 then some (k - 48 + 52)
  else if k = 43 then some 62
  else if k = 47 then some 63
  else none

/-- Base64-encode a byte list. -/
def b64encodeBytes : List Nat → List Char
  | [] => []
  | [a] => [sextetChar (a / 4), sextetChar (a % 4 * 16), '=', '=']
  | [a, b] => [sextetChar (a / 4), sextetChar (a % 4 * 16 + b / 16), sextetChar (b % 16 * 4), '=']
  | a :: b :: c :: rest =>
      sextetChar (a / 4) :: sextetChar (a % 4 * 16 + b / 16) ::
      sextetChar (b % 16 * 4 + c / 64) :: sextetChar (c % 64) :: b64encodeBytes rest

/-- Base64-decode a character list (strict on padding placement). -/
def b64decodeBytes : List Char → Option (List Nat)
  | [] => some []
  | c1 :: c2 :: c3 :: c4 :: rest =>
      if c3 = '=' ∧ c4 = '=' ∧ rest = [] then
        match sextetVal c1, sextetVal c2 with
        | some s1, some s2 => if s2 % 16 = 0 then some [s1 * 4 + s2 / 16] else none
        | _, _ => none
      else if c4 = '=' ∧ rest = [] then
        match sextetVal c1, sextetVal c2, sextetVal c3 with
        | some s1, some s2, some s3 =>
            if s3 % 4 = 0 then some [s1 * 4 + s2 / 16, s2 % 16 * 16 + s3 / 4] else none
        | _, _, _ => none
      else
        match sextetVal c1, sextetVal c2, sextetVal c3, sextetVal c4, b64decodeBytes rest with
        | some s1, some s2, some s3, some s4, some bs =>
            some ((s1 * 4 + s2 / 16) :: (s2 % 16 * 16 + s3 / 4) :: (s3 % 4 * 64 + s4) :: bs)
        | _, _, _, _, _ => none
  | _ => none

/-- UTF-8 bytes of one unicode scalar value. -/
def utf8EncodeChar (c : Char) : List Nat :=
  let n := c.toNat
  if n < 128 then [n]
  else if n < 2048 then [192 + n / 64, 128 + n % 64]
  else if n < 65536 then [224 + n / 4096, 128 + n / 64 % 64, 128 + n % 64]
  else [240 + n / 262144, 128 + n / 4096 % 64, 128 + n / 64 % 64, 128 + n % 64]

/-- UTF-8 byte list of a string. -/
def utf8Encode (s : String) : List Nat := (s.toList.map utf8EncodeChar).flatten

/-- Read one UTF-8 scalar: the lead byte `b`, continuation bytes taken from
`rest` (a missing byte reads as 0 and fails the continuation check).  Returns
the scalar and how many continuation bytes it consumed.  Permissive: does not
reject overlong forms, which cannot arise from `utf8EncodeChar`. -/
def utf8DecodeOne (b : Nat) (rest : List Nat) : Option (Char × Nat) :=
  let b2 := rest.getD 0 0
  let b3 := rest.getD 1 0
  let b4 := rest.getD 2 0
  if b < 128 then some (Char.ofNat b, 0)
  else if 192 ≤ b ∧ b < 224 then
    if 128 ≤ b2 ∧ b2 < 192 then some (Char.ofNat ((b - 192) * 64 + (b2 - 128)), 1) else none
  else if 224 ≤ b ∧ b < 240 then
    if (128 ≤ b2 ∧ b2 < 192) ∧ (128 ≤ b3 ∧ b3 < 192) then
      some (Char.ofNat ((b - 224) * 4096 + (b2 - 128) * 64 + (b3 - 128)), 2)
    else none
  else if 240 ≤ b ∧ b < 248 then
    if (128 ≤ b2 ∧ b2 < 192) ∧ (128 ≤ b3 ∧ b3 < 192) ∧ (128 ≤ b4 ∧ b4 < 192) then
      some (Char.ofNat ((b - 240) * 262144 + (b2 - 128) * 4096 + (b3 - 128) * 64 + (b4 - 128)), 3)
    else none
  else none

/-- UTF-8 decode a byte list to unicode scalars. -/
def utf8DecodeAux : List Nat → Option (List Char)
  | [] => some []
  | b :: rest =>
      match utf8DecodeOne b rest with
      | some (c, k) => (utf8DecodeAux (rest.drop k)).map (fun cs => c :: cs)
      | none => none
termination_by l => l.length
decreasing_by
  simp only [List.length_drop, List.length_cons]
  omega

/-- UTF-8 decoding of a byte list back to a string. -/
def utf8Decode (bs : List Nat) : Option String :=
  (utf8DecodeAux bs).map (fun cs => String.mk cs)

/-! ## Splitting on the colon delimiter

Model of `encoded.split(":")` used by `decrypt` in src/auth/token-store.ts. -/

/-- JS `String.prototype.split(":")` at character-list level. -/
def splitOnColon : List Char → List (List Char)
  | [] => [[]]
  | c :: rest =>
      let r := splitOnColon rest
      if c = ':' then [] :: r
      else
        match r with
        | [] => [[c]]
        | h :: t => (c :: h) :: t

/-! ## Timestamp rendering

Model of `new Date(ms).toISOString()` and `new Date(str).getTime()`
(src/auth/token-store.ts).  The real pair is an exact round trip on epoch
milliseconds over the representable `Date` range and yields NaN for an
unparsable string; the model keeps exactly that contract with an injective
rendering of the integer (sign marker plus base-256 digits). -/

/-- Little-endian base-256 digits of a natural number. -/
def natToBytes : Nat → List Nat
  | 0 => []
  | n + 1 => ((n + 1) % 256) :: natToBytes ((n + 1) / 256)
decreasing_by exact Nat.div_lt_self (Nat.succ_pos n) (by omega)

/-- Recombine little-endian base-256 digits. -/
def bytesToNat : List Nat → Nat
  | [] => 0
  | b :: rest => b + 256 * bytesToNat rest

/-- Stand-in for `new Date(ms).toISOString()`: an injective rendering of the
epoch-millisecond value. -/
def dateFormat (ms : Int) : String :=
  String.mk ('@' :: (if ms < 0 then '-' else '+') ::
    (natToBytes ms.natAbs).map (fun b => Char.ofNat b))

/-- Stand-in for `new Date(str).getTime()`: inverts `dateFormat`, NaN on any
other string (JS yields NaN for unparsable date strings). -/
def dateGetTime (s : String) : JSNum :=
  match s.toList with
  | '@' :: sign :: rest =>
      if sign = '+' then JSNum.num (Int.ofNat (bytesToNat (rest.map Char.toNat)))
      else if sign = '-' then JSNum.num (-(Int.ofNat (bytesToNat (rest.map Char.toNat))))
      else JSNum.nan
  | _ => JSNum.nan

/-! ## JSON codec for the inner auth record

`saveTokensToDisk` encrypts `JSON.stringify(authData)` where `authData` is
the `CliAuthSection` record `{type, token, refreshToken, expiresAt}`
(src/auth/token-store.ts), and `loadTokensFromDisk` applies `JSON.parse` to
the decrypted text.  The serializer below emits exactly the JSON.stringify
text for that record (string fields, key order as constructed, no spaces,
quotes and backslashes escaped); the parser is strict to that shape, so
`jsonParseAuth = none` models both a JSON.parse throw and a decrypted text
that is not such a record. -/

/-- `CliAuthSection` (src/auth/token-store.ts): the persisted auth record.
The optional `user` sub-object is absent from every record this code writes
and is never read, so it is not modelled. -/
structure CliAuthSection where
  type : String
  token : String
  refreshToken : String
  expiresAt : String
deriving DecidableEq, Repr

/-- JSON string escaping of one character (quote and backslash, the only
characters JSON.stringify escapes that can appear in the fields written by
this code). -/
def escapeChar (c : Char) : List Char :=
  if c = '"' ∨ c = '\\' then ['\\', c] else [c]

/-- JSON string escaping at character-list level. -/
def jsonEscapeL (cs : List Char) : List Char := (cs.map escapeChar).flatten

/-- A JSON string literal: quote, escaped body, quote. -/
def quoteStr (s : String) : List Char := '"' :: (jsonEscapeL s.toList ++ ['"'])

/-- A JSON object key literal followed by the colon. -/
def keyLit (k : String) : List Char := '"' :: (k.toList ++ ['"', ':'])

/-- `JSON.stringify(authData)` for the `CliAuthSection` record. -/
def jsonStringifyAuth (a : CliAuthSection) : String :=
  String.mk (Char.ofNat 123 ::
    (keyLit "type" ++ quoteStr a.type ++ [','] ++
     keyLit "token" ++ quoteStr a.token ++ [','] ++
     keyLit "refreshToken" ++ quoteStr a.refreshToken ++ [','] ++
     keyLit "expiresAt" ++ quoteStr a.expiresAt ++ [Char.ofNat 125]))

/-- Scan a JSON string body up to the closing quote, unescaping; returns the
body and the remaining input. -/
def scanStr : List Char → Option (List Char × List Char)
  | [] => none
  | c :: rest =>
      if c = '\\' then
        if rest.isEmpty then none
        else (scanStr (rest.drop 1)).map (fun p => (rest.getD 0 ' ' :: p.1, p.2))
      else if c = '"' then some ([], rest)
      else (scanStr rest).map (fun p => (c :: p.1, p.2))
termination_by l => l.length
decreasing_by
  all_goals simp only [List.length_drop, List.length_cons]
  all_goals omega

/-- Consume an expected literal prefix. -/
def dropLit : List Char → List Char → Option (List Char)
  | [], cs => some cs
  | l :: ls, c :: cs => if c = l then dropLit ls cs else none
  | _ :: _, [] => none

/-- `JSON.parse` of the decrypted text followed by the field reads the
loader performs, strict to the record shape `jsonStringifyAuth` emits. -/
def jsonParseAuth (s : String) : Option CliAuthSection := do
  let cs1 ← dropLit (Char.ofNat 123 :: (keyLit "type" ++ ['"'])) s.toList
  let p1 ← scanStr cs1
  let cs3 ← dropLit (',' :: (keyLit "token" ++ ['"'])) p1.2
  let p2 ← scanStr cs3
  let cs5 ← dropLit (',' :: (keyLit "refreshToken" ++ ['"'])) p2.2
  let p3 ← scanStr cs5
  let cs7 ← dropLit (',' :: (keyLit "expiresAt" ++ ['"'])) p3.2
  let p4 ← scanStr cs7
  if p4.2 = [Char.ofNat 125] then
    pure ⟨String.mk p1.1, String.mk p2.1, String.mk p3.1, String.mk p4.1⟩
  else none

/-! ## Encryption (src/auth/token-store.ts, lines 247-278)

AES-256-GCM with a machine-derived key, modelled at the AEAD contract level
(see the file header).  The stored representation and the fail-closed
behaviour of `decrypt` follow the source exactly: three base64 parts joined
by colons, errors on any other part count or on a tag mismatch. -/

/-- The machine-specific inputs to `deriveKey` (`hostname()`,
`userInfo().username`, `homedir()` from node:os). -/
structure MachineEnv where
  hostname : String
  username : String
  homedir : String
deriving DecidableEq, Repr

/-- `SALT` from src/auth/token-store.ts. -/
def SALT : String := "ulink-mcp-token-store-v1"

/-- `deriveKey()`: `scryptSync(material, SALT, 32)` over the material string
`hostname:username:homedir`.  The KDF is modelled as injective: the material
string itself stands for the derived key. -/
def deriveKey (env : MachineEnv) : String :=
  env.hostname ++ ":" ++ env.username ++ ":" ++ env.homedir

/-- The GCM authentication tag, modelled as binding the key and nonce (a
decryption attempt under a different machine key fails the tag check, as the
real GCM tag does). -/
def gcmTag (key : String) (iv : List Nat) : List Nat := utf8Encode key ++ iv

/-- `encrypt(plaintext)` (src/auth/token-store.ts): fresh 16-byte iv (passed
explicitly here), AEAD-encrypt, format `base64(iv):base64(tag):base64(ct)`. -/
def encrypt (key : String) (iv : List Nat) (plaintext : String) : String :=
  String.mk (b64encodeBytes iv ++ ':' ::
    (b64encodeBytes (gcmTag key iv) ++ ':' :: b64encodeBytes (utf8Encode plaintext)))

/-- `decrypt(encoded)` (src/auth/token-store.ts): split on ":", require
exactly three parts, decode, verify the tag, fail closed otherwise. -/
def decrypt (key : String) (encoded : String) : Option String :=
  match splitOnColon encoded.toList with
  | [ivPart, tagPart, dataPart] => do
      let iv ← b64decodeBytes ivPart
      let tag ← b64decodeBytes tagPart
      let data ← b64decodeBytes dataPart
      if tag = gcmTag key iv then utf8Decode data else none
  | _ => none

/-- Membership in the base64 output alphabet (including padding). -/
def isBase64Char (c : Char) : Bool := (sextetVal c).isSome ∨ c = '='

/-! ## Persisted config and the token store
(src/auth/token-store.ts, lines 297-380)

The config file is modelled structurally: the legacy `auth` object, the
`auth_encrypted` string, and the caller-owned other fields kept opaque.
`Option Config` models the file: `none` is a missing or unparsable file.
The `readFileSync`/`JSON.parse`/`writeFileSync` layers are the identity on
this structure; `Date.now()` is the explicit `now`; the fresh `randomBytes`
iv is the explicit `iv`. -/

/-- The persisted `~/.ulink/config.json` document. -/
structure Config where
  auth : Option CliAuthSection
  auth_encrypted : Option String
  other : List (String × String)
deriving DecidableEq, Repr

/-- `saveTokensToDisk(tokens)` (src/auth/token-store.ts lines 353-380):
best-effort read of the existing config (missing or invalid starts fresh),
build the inner record with the ISO expiry, set `auth_encrypted`, delete the
legacy `auth`, write.  A `new Date(NaN).toISOString()` throw is caught by
the outer catch: the failure is logged and nothing is written. -/
def saveTokensToDisk (env : MachineEnv) (iv : List Nat) (tokens : OAuthTokens)
    (file : Option Config) : Option Config :=
  let config := file.getD ⟨none, none, []⟩
  match tokens.expiresAt with
  | JSNum.nan => file
  | JSNum.num ms =>
      let authData : CliAuthSection :=
        ⟨"jwt", tokens.accessToken, tokens.refreshToken, dateFormat ms⟩
      some { config with
        auth_encrypted := some (encrypt (deriveKey env) iv (jsonStringifyAuth authData)),
        auth := none }

/-- The legacy plaintext branch of `loadTokensFromDisk` (src/auth/token-store.ts
lines 321-345): shape check (`type` tag, non-empty tokens), expiry check,
then auto-migration through `saveTokensToDisk` before returning the triple.
Returns the loaded tokens and the resulting file state. -/
def legacyLoad (env : MachineEnv) (iv : List Nat) (now : Int) (config : Config)
    (file : Option Config) : Option OAuthTokens × Option Config :=
  match config.auth with
  | none => (none, file)
  | some auth =>
      if auth.type ≠ "jwt" ∨ auth.token = "" ∨ auth.refreshToken = "" then (none, file)
      else
        match dateGetTime auth.expiresAt with
        | JSNum.nan => (none, file)
        | JSNum.num e =>
            if e ≤ now then (none, file)
            else
              let tokens : OAuthTokens := ⟨auth.token, auth.refreshToken, JSNum.num e⟩
              (some tokens, saveTokensToDisk env iv tokens file)

/-- `loadTokensFromDisk()` (src/auth/token-store.ts lines 297-346): try the
encrypted field first; a decryption or inner-parse failure falls through to
the legacy branch; a decrypted record is only checked for a valid non-past
expiry (no type-tag or non-emptiness check on this path). -/
def loadTokensFromDisk (env : MachineEnv) (iv : List Nat) (now : Int)
    (file : Option Config) : Option OAuthTokens × Option Config :=
  match file with
  | none => (none, none)
  | some config =>
      match config.auth_encrypted with
      | some enc =>
          match decrypt (deriveKey env) enc with
          | some decrypted =>
              match jsonParseAuth decrypted with
              | some auth =>
                  match dateGetTime auth.expiresAt with
                  | JSNum.nan => (none, some config)
                  | JSNum.num e =>
                      if e ≤ now then (none, some config)
                      else (some ⟨auth.token, auth.refreshToken, JSNum.num e⟩, some config)
              | none => legacyLoad env iv now config (some config)
          | none => legacyLoad env iv now config (some config)
      | none => legacyLoad env iv now config (some config)

/-- Machine identity for the C3 counterexample. -/
def cexEnv : MachineEnv := ⟨"host", "user", "home"⟩

/-- Decrypted auth record for the C3 counterexample: its type tag is
"api-key", not the expected marker "jwt". -/
def cexAuth : CliAuthSection := ⟨"api-key", "tok", "ref", dateFormat 1000⟩

/-- The encrypted auth field for the C3 counterexample. -/
def cexEnc : String := encrypt (deriveKey cexEnv) [] (jsonStringifyAuth cexAuth)

/-- Persisted config for the C3 counterexample. -/
def cexConfig : Config := ⟨none, some cexEnc, []⟩

/-! ## Browser OAuth flow (src/auth/oauth.ts, lines 78-193)

The loopback callback server and the 5-minute timer are modelled as a state
machine.  One state per pending flow; events are inbound HTTP requests and
the timer firing.  `settlements` records every `resolve`/`reject` call on
the flow promise, in order (the promise itself would keep only the first).
`server.close()` stops the listener, so requests arriving after it are not
delivered (modelled by `serverClosed` gating request processing).  Binding
the port is assumed to succeed (the bind-failure rejection at lines 161-166
is outside the four settlement kinds the claims speak about). -/

/-- The ways the flow promise gets settled. -/
inductive FlowResult where
  | success (tokens : OAuthTokens)
  | oauthError (message : String)
  | missingParams
  | timedOut
deriving DecidableEq, Repr

/-- Mutable state of one `browserOAuthFlow` run. -/
structure FlowState where
  settled : Bool
  serverClosed : Bool
  callbackAttempts : Nat
  settlements : List FlowResult
deriving DecidableEq, Repr

/-- State at entry to Listening. -/
def initialFlowState : FlowState := ⟨false, false, 0, []⟩

/-- An inbound HTTP request as the handler reads it: the path and the query
parameters it extracts (`searchParams.get` yields null for an absent key,
modelled by `none`). -/
structure CallbackRequest where
  path : String
  session : Option String
  errorParam : Option String
  errorDescription : Option String
  accessToken : Option String
  refreshToken : Option String
  expiresIn : Option String
deriving DecidableEq, Repr

/-- `MAX_CALLBACK_ATTEMPTS` from src/auth/oauth.ts. -/
def MAX_CALLBACK_ATTEMPTS : Nat := 5

/-- JS truthiness of a nullable string (null and "" are falsy). -/
def truthy : Option String → Bool
  | none => false
  | some s => s ≠ ""

/-- The request handler (src/auth/oauth.ts lines 89-158), acting on the flow
state and producing the HTTP status it answers.  `none` as the reply means
the server was already closed and the request was never delivered. -/
def handleCallbackRequest (sessionId : String) (now : Int) (st : FlowState)
    (req : CallbackRequest) : FlowState × Option Nat :=
  if st.serverClosed then (st, none)
  else if req.path ≠ "/callback" then (st, some 404)
  else
    let st1 : FlowState := { st with callbackAttempts := st.callbackAttempts + 1 }
    if MAX_CALLBACK_ATTEMPTS < st1.callbackAttempts then (st1, some 429)
    else if req.session ≠ some sessionId then (st1, some 400)
    else if truthy req.errorParam then
      let desc := req.errorDescription.getD "Unknown error"
      ({ st1 with
          settled := true
          serverClosed := true
          settlements := st1.settlements ++
            [FlowResult.oauthError ("OAuth error: " ++ req.errorParam.getD "" ++ " — " ++ desc)] },
        some 200)
    else if ¬ truthy req.accessToken ∨ ¬ truthy req.refreshToken ∨ ¬ truthy req.expiresIn then
      ({ st1 with
          settled := true
          serverClosed := true
          settlements := st1.settlements ++ [FlowResult.missingParams] }, some 200)
    else
      let tokens : OAuthTokens :=
        ⟨req.accessToken.getD "", req.refreshToken.getD "",
          JSNum.add (JSNum.num now) (JSNum.mul (parseIntJS (req.expiresIn.getD "")) (JSNum.num 1000))⟩
      ({ st1 with
          settled := true
          serverClosed := true
          settlements := st1.settlements ++ [FlowResult.success tokens] }, some 200)

/-- The 5-minute timer callback (src/auth/oauth.ts lines 182-188): gated by
the `settled` flag. -/
def handleTimeout (st : FlowState) : FlowState :=
  if st.settled then st
  else { st with
      settled := true
      serverClosed := true
      settlements := st.settlements ++ [FlowResult.timedOut] }

/-- An event delivered to a pending flow. -/
inductive FlowEvent where
  | callback (now : Int) (req : CallbackRequest)
  | timerFires
deriving Repr

/-- One step of the flow state machine. -/
def flowStep (sessionId : String) (st : FlowState) : FlowEvent → FlowState
  | FlowEvent.callback now req => (handleCallbackRequest sessionId now st req).1
  | FlowEvent.timerFires => handleTimeout st

/-- A whole run of `browserOAuthFlow` over a sequence of events. -/
def runFlow (sessionId : String) (events : List FlowEvent) : FlowState :=
  events.foldl (flowStep sessionId) initialFlowState

/-- Reachability invariant of the flow machine: the settled flag, the closed
listener and a recorded settlement coincide. -/
def FlowInv (st : FlowState) : Prop :=
  st.serverClosed = st.settled ∧
  st.settlements.length = (if st.settled then 1 else 0)

/-! ## Token refresher and module configuration
(src/auth/oauth.ts lines 12-16 and 199-233, src/client/ulink-api.ts lines 13-21, 70-100) -/

/-- The HTTP response as `refreshAccessToken` observes it: `ok`/`status`,
the text body it reads on failure, the JSON fields it reads on success. -/
structure RefreshHttpResponse where
  ok : Bool
  status : Nat
  bodyText : String
  access_token : String
  refresh_token : String
  expires_in : Int
deriving DecidableEq, Repr

/-- `refreshAccessToken(refreshToken)` (src/auth/oauth.ts lines 199-233)
after the fetch: on a non-ok response it throws
`Token refresh failed (status): body` — the response body text is embedded
in the error message; on success it converts to the absolute-expiry triple. -/
def refreshAccessToken (now : Int) (res : RefreshHttpResponse) : Except String OAuthTokens :=
  if ¬ res.ok then
    Except.error ("Token refresh failed (" ++ toString res.status ++ "): " ++ res.bodyText)
  else
    Except.ok ⟨res.access_token, res.refresh_token, JSNum.num (now + res.expires_in * 1000)⟩

/-- JS `String.prototype.startsWith` at character-list level. -/
def isPrefixL : List Char → List Char → Bool
  | [], _ => true
  | _ :: _, [] => false
  | p :: ps, c :: cs => p = c && isPrefixL ps cs

/-- JS `String.prototype.startsWith`. -/
def jsStartsWith (s pre : String) : Bool := isPrefixL pre.toList s.toList

/-- The built-in identity endpoint base. -/
def DEFAULT_SUPABASE_URL : String := "https://cjgihassfsspxivjtgoi.supabase.co"

/-- The module-level `SUPABASE_URL` initializer (src/auth/oauth.ts lines
15-16): the environment override or the default.  The oauth module performs
NO scheme validation — the `Except` result shows where a load-time throw
would surface, and this initializer never produces one. -/
def supabaseUrlInit (envOverride : Option String) : Except String String :=
  Except.ok (envOverride.getD DEFAULT_SUPABASE_URL)

/-- The module-level `API_BASE` initializer of the request client
(src/client/ulink-api.ts lines 13-19): throws at module load when the
resource-API base is not HTTPS.  This check exists only for `ULINK_API_URL`,
not for the identity endpoint. -/
def apiBaseInit (envOverride : Option String) : Except String String :=
  let apiBase := envOverride.getD "https://api.ulink.ly"
  if jsStartsWith apiBase "https://" then Except.ok apiBase
  else Except.error "ULINK_API_URL must use HTTPS to protect credentials in transit"

/-- The refresh-request URL (src/auth/oauth.ts line 206). -/
def refreshUrl (supabaseUrl : String) : String :=
  supabaseUrl ++ "/auth/v1/token?grant_type=refresh_token"

/-- `TOKEN_REFRESH_BUFFER_MS` from src/client/ulink-api.ts. -/
def TOKEN_REFRESH_BUFFER_MS : Int := 30 * 1000

/-- The proactive-refresh condition of `ensureAuth` (src/client/ulink-api.ts
line 87): `oauthTokens.expiresAt - Date.now() < TOKEN_REFRESH_BUFFER_MS`,
with JS comparison semantics. -/
def needsProactiveRefresh (tokens : OAuthTokens) (now : Int) : Bool :=
  JSNum.lt (JSNum.sub tokens.expiresAt (JSNum.num now)) (JSNum.num TOKEN_REFRESH_BUFFER_MS)

/-! ## Theorems -/

theorem pruneTimestamps_eq_filter (now : Int) :
    ∀ l : List Int, l.Sorted (· ≤ ·) →
      pruneTimestamps now l = l.filter (fun t => now - RATE_LIMIT_WINDOW_MS < t) := by
  intro l
  induction l with
  | nil => intro _; rfl
  | cons t rest ih =>
    intro hs
    rw [List.sorted_cons] at hs
    by_cases h : t ≤ now - RATE_LIMIT_WINDOW_MS
    · simp only [pruneTimestamps, if_pos h, List.filter_cons]
      have hnot : ¬ (now - RATE_LIMIT_WINDOW_MS < t) := not_lt.mpr h
      simp [hnot, ih hs.2]
    · have hlt : now - RATE_LIMIT_WINDOW_MS < t := lt_of_not_le h
      simp only [pruneTimestamps, if_neg h, List.filter_cons]
      have hall : ∀ x ∈ rest, now - RATE_LIMIT_WINDOW_MS < x := fun x hx =>
        lt_of_lt_of_le hlt (hs.1 x hx)
      have : rest.filter (fun t => now - RATE_LIMIT_WINDOW_MS < t) = rest := by
        apply List.filter_eq_self.mpr
        intro x hx
        exact decide_eq_true (hall x hx)
      simp [hlt, this]

/-- Claim C7: for every `apiRequest` call, a call arriving when 30 recorded
timestamps lie within the trailing 10-second window fails immediately — no
network call runs and no timestamp is recorded (the state is exactly the
pruned window, which still holds the same 30 in-window entries); a call
arriving when fewer than 30 timestamps lie within the window is admitted
(the network dispatch runs) and its timestamp is recorded; and the in-window
count never exceeds 30 (it is preserved below the bound by every call).
The timestamp list is sorted because entries are appended at successive
clock readings. -/
theorem apiRequest_rate_limit_window (now : Int) (l : List Int)
    (hsorted : l.Sorted (· ≤ ·)) :
    (inWindowCount now l = RATE_LIMIT_MAX →
      (apiRequestGate now l).2 = false ∧
      (apiRequestGate now l).1 = l.filter (fun t => now - RATE_LIMIT_WINDOW_MS < t)) ∧
    (inWindowCount now l < RATE_LIMIT_MAX →
      (apiRequestGate now l).2 = true ∧
      (apiRequestGate now l).1 = l.filter (fun t => now - RATE_LIMIT_WINDOW_MS < t) ++ [now]) ∧
    (inWindowCount now l ≤ RATE_LIMIT_MAX →
      inWindowCount now (apiRequestGate now l).1 ≤ RATE_LIMIT_MAX) := by
  have hpr := pruneTimestamps_eq_filter now l hsorted
  have hcount : inWindowCount now l =
      (l.filter (fun t => now - RATE_LIMIT_WINDOW_MS < t)).length := rfl
  have hfilter_self :
      (l.filter (fun t => now - RATE_LIMIT_WINDOW_MS < t)).filter
        (fun t => now - RATE_LIMIT_WINDOW_MS < t) =
      l.filter (fun t => now - RATE_LIMIT_WINDOW_MS < t) := by
    apply List.filter_eq_self.mpr
    intro x hx
    exact (List.mem_filter.mp hx).2
  have hnow : now - RATE_LIMIT_WINDOW_MS < now := by
    simp only [RATE_LIMIT_WINDOW_MS]
    omega
  refine ⟨?_, ?_, ?_⟩
  · intro h30
    rw [hcount] at h30
    simp [apiRequestGate, enforceRateLimit, hpr, h30, RATE_LIMIT_MAX]
  · intro hlt
    rw [hcount] at hlt
    have : ¬ RATE_LIMIT_MAX ≤ (l.filter (fun t => now - RATE_LIMIT_WINDOW_MS < t)).length :=
      not_le.mpr hlt
    simp only [apiRequestGate, enforceRateLimit, hpr, this, if_neg, ite_false,
      not_false_eq_true, and_self]
  · intro hle
    rw [hcount] at hle
    by_cases h : RATE_LIMIT_MAX ≤ (l.filter (fun t => now - RATE_LIMIT_WINDOW_MS < t)).length
    · simp only [apiRequestGate, enforceRateLimit, hpr, h, if_pos, inWindowCount,
        hfilter_self]
      omega
    · simp only [apiRequestGate, enforceRateLimit, hpr, h, if_neg, ite_false, inWindowCount,
        List.filter_append, hfilter_self, List.length_append]
      have : ([now].filter (fun t => now - RATE_LIMIT_WINDOW_MS < t)) = [now] := by
        simp [hnow]
      rw [this]
      simp only [List.length_singleton]
      omega

/-- Witness for C7 at concrete inputs: with 30 in-window timestamps (all at
time 5000, now = 10000) the gate refuses and the network body does not run;
with 29 it admits. -/
theorem apiRequest_rate_limit_window_witness :
    (apiRequestGate 10000 (List.replicate 30 (5000 : Int))).2 = false ∧
    (apiRequestGate 10000 (List.replicate 29 (5000 : Int))).2 = true := by
  constructor
  · exact ((apiRequest_rate_limit_window 10000 (List.replicate 30 (5000 : Int))
      (by decide)).1 (by decide)).1
  · exact ((apiRequest_rate_limit_window 10000 (List.replicate 29 (5000 : Int))
      (by decide)).2.1 (by decide)).1

theorem sextetVal_sextetChar : ∀ n < 64, sextetVal (sextetChar n) = some n := by decide

theorem sextetChar_ne_eq : ∀ n < 64, sextetChar n ≠ '=' := by decide

theorem sextetChar_ne_colon : ∀ n < 64, sextetChar n ≠ ':' := by decide

theorem b64encodeBytes_no_colon :
    ∀ bs : List Nat, (∀ b ∈ bs, b < 256) → ':' ∉ b64encodeBytes bs := by
  intro bs
  induction bs using b64encodeBytes.induct with
  | case1 => intro _ h; simp [b64encodeBytes] at h
  | case2 a =>
    intro hb h
    have ha : a < 256 := hb a (by simp)
    simp only [b64encodeBytes, List.mem_cons] at h
    rcases h with h | h | h | h
    · exact sextetChar_ne_colon _ (by omega) h.symm
    · exact sextetChar_ne_colon _ (by omega) h.symm
    · simp at h
    · simp at h
  | case3 a b =>
    intro hb h
    have ha : a < 256 := hb a (by simp)
    have hbb : b < 256 := hb b (by simp)
    simp only [b64encodeBytes, List.mem_cons] at h
    rcases h with h | h | h | h | h
    · exact sextetChar_ne_colon _ (by omega) h.symm
    · exact sextetChar_ne_colon _ (by omega) h.symm
    · exact sextetChar_ne_colon _ (by omega) h.symm
    · simp at h
    · simp at h
  | case4 a b c rest ih =>
    intro hb h
    have ha : a < 256 := hb a (by simp)
    have hbb : b < 256 := hb b (by simp)
    have hc : c < 256 := hb c (by simp)
    simp only [b64encodeBytes, List.mem_cons] at h
    rcases h with h | h | h | h | h
    · exact sextetChar_ne_colon _ (by omega) h.symm
    · exact sextetChar_ne_colon _ (by omega) h.symm
    · exact sextetChar_ne_colon _ (by omega) h.symm
    · exact sextetChar_ne_colon _ (by omega) h.symm
    · exact ih (fun x hx => hb x (by simp [hx])) h

theorem b64decode_encode :
    ∀ bs : List Nat, (∀ b ∈ bs, b < 256) →
      b64decodeBytes (b64encodeBytes bs) = some bs := by
  intro bs
  induction bs using b64encodeBytes.induct with
  | case1 => intro _; rfl
  | case2 a =>
    intro hb
    have ha : a < 256 := hb a (by simp)
    have h1 := sextetVal_sextetChar (a / 4) (by omega)
    have h2 := sextetVal_sextetChar (a % 4 * 16) (by omega)
    have hz : a % 4 * 16 % 16 = 0 := by omega
    have e1 : a / 4 * 4 + a % 4 * 16 / 16 = a := by omega
    simp [b64encodeBytes, b64decodeBytes, h1, h2, hz, e1]
    try omega
  | case3 a b =>
    intro hb
    have ha : a < 256 := hb a (by simp)
    have hbb : b < 256 := hb b (by simp)
    have h1 := sextetVal_sextetChar (a / 4) (by omega)
    have h2 := sextetVal_sextetChar (a % 4 * 16 + b / 16) (by omega)
    have h3 := sextetVal_sextetChar (b % 16 * 4) (by omega)
    have hch : sextetChar (b % 16 * 4) ≠ '=' := sextetChar_ne_eq _ (by omega)
    have hz : b % 16 * 4 % 4 = 0 := by omega
    have e1 : a / 4 * 4 + (a % 4 * 16 + b / 16) / 16 = a := by omega
    have e2 : (a % 4 * 16 + b / 16) % 16 * 16 + b % 16 * 4 / 4 = b := by omega
    simp [b64encodeBytes, b64decodeBytes, hch, h1, h2, h3, hz, e1, e2]
    try omega
  | case4 a b c rest ih =>
    intro hb
    have ha : a < 256 := hb a (by simp)
    have hbb : b < 256 := hb b (by simp)
    have hc : c < 256 := hb c (by simp)
    have h1 := sextetVal_sextetChar (a / 4) (by omega)
    have h2 := sextetVal_sextetChar (a % 4 * 16 + b / 16) (by omega)
    have h3 := sextetVal_sextetChar (b % 16 * 4 + c / 64) (by omega)
    have h4 := sextetVal_sextetChar (c % 64) (by omega)
    have hch1 : sextetChar (b % 16 * 4 + c / 64) ≠ '=' := sextetChar_ne_eq _ (by omega)
    have hch2 : sextetChar (c % 64) ≠ '=' := sextetChar_ne_eq _ (by omega)
    have hrest := ih (fun x hx => hb x (by simp [hx]))
    have e1 : a / 4 * 4 + (a % 4 * 16 + b / 16) / 16 = a := by omega
    have e2 : (a % 4 * 16 + b / 16) % 16 * 16 + (b % 16 * 4 + c / 64) / 4 = b := by omega
    have e3 : (b % 16 * 4 + c / 64) % 4 * 64 + c % 64 = c := by omega
    simp [b64encodeBytes, b64decodeBytes, hch1, hch2, h1, h2, h3, h4, hrest, e1, e2, e3]
    try omega

/-! ## UTF-8 codec

Model of the UTF-8 byte encoding of strings performed by
`cipher.update(plaintext, "utf-8")` and `Buffer.toString("utf-8")` in the
token store.  Genuine UTF-8 over unicode scalar values. -/

theorem char_toNat_lt (c : Char) : c.toNat < 1114112 := by
  have h := c.valid
  rcases h with h | h
  · exact Nat.lt_trans h (by decide)
  · exact h.2

theorem utf8EncodeChar_lt_256 (c : Char) : ∀ b ∈ utf8EncodeChar c, b < 256 := by
  have hn := char_toNat_lt c
  by_cases h1 : c.toNat < 128
  · simp only [utf8EncodeChar, if_pos h1]
    intro b hb
    simp at hb
    omega
  · by_cases h2 : c.toNat < 2048
    · simp only [utf8EncodeChar, if_neg h1, if_pos h2]
      intro b hb
      simp at hb
      rcases hb with hb | hb <;> omega
    · by_cases h3 : c.toNat < 65536
      · simp only [utf8EncodeChar, if_neg h1, if_neg h2, if_pos h3]
        intro b hb
        simp at hb
        rcases hb with hb | hb | hb <;> omega
      · simp only [utf8EncodeChar, if_neg h1, if_neg h2, if_neg h3]
        intro b hb
        simp at hb
        rcases hb with hb | hb | hb | hb <;> omega

theorem utf8Encode_lt_256 (s : String) : ∀ b ∈ utf8Encode s, b < 256 := by
  intro b hb
  simp only [utf8Encode, List.mem_flatten, List.mem_map] at hb
  obtain ⟨l, ⟨c, _, hc⟩, hbl⟩ := hb
  exact utf8EncodeChar_lt_256 c b (hc ▸ hbl)

theorem utf8DecodeAux_encodeChar (c : Char) (bs : List Nat) :
    utf8DecodeAux (utf8EncodeChar c ++ bs) = (utf8DecodeAux bs).map (fun cs => c :: cs) := by
  have hn := char_toNat_lt c
  by_cases h1 : c.toNat < 128
  · simp only [utf8EncodeChar, if_pos h1, List.cons_append, List.nil_append]
    rw [utf8DecodeAux.eq_def]
    simp [utf8DecodeOne, h1]
  · by_cases h2 : c.toNat < 2048
    · have hb1 : ¬ (192 + c.toNat / 64 < 128) := by omega
      have hb2 : 192 ≤ 192 + c.toNat / 64 ∧ 192 + c.toNat / 64 < 224 := by omega
      have hb3 : 128 ≤ 128 + c.toNat % 64 ∧ 128 + c.toNat % 64 < 192 := by omega
      have hv : (192 + c.toNat / 64 - 192) * 64 + (128 + c.toNat % 64 - 128) = c.toNat := by omega
      simp only [utf8EncodeChar, if_neg h1, if_pos h2, List.cons_append, List.nil_append]
      have he : c.toNat / 64 * 64 + c.toNat % 64 = c.toNat := by omega
      have hchar : Char.ofNat (c.toNat / 64 * 64 + c.toNat % 64) = c := by
        rw [he, Char.ofNat_toNat]
      rw [utf8DecodeAux.eq_def]
      simp [utf8DecodeOne, hb1, hb2, hb3, hv, hchar]
    · by_cases h3 : c.toNat < 65536
      · have hb1 : ¬ (224 + c.toNat / 4096 < 128) := by omega
        have hb2 : ¬ (192 ≤ 224 + c.toNat / 4096 ∧ 224 + c.toNat / 4096 < 224) := by omega
        have hb3 : 224 ≤ 224 + c.toNat / 4096 ∧ 224 + c.toNat / 4096 < 240 := by omega
        have hc2 : 128 ≤ 128 + c.toNat / 64 % 64 ∧ 128 + c.toNat / 64 % 64 < 192 := by omega
        have hc3 : 128 ≤ 128 + c.toNat % 64 ∧ 128 + c.toNat % 64 < 192 := by omega
        have hv : (224 + c.toNat / 4096 - 224) * 4096 + (128 + c.toNat / 64 % 64 - 128) * 64 +
            (128 + c.toNat % 64 - 128) = c.toNat := by omega
        simp only [utf8EncodeChar, if_neg h1, if_neg h2, if_pos h3, List.cons_append,
          List.nil_append]
        have he : c.toNat / 4096 * 4096 + c.toNat / 64 % 64 * 64 + c.toNat % 64 = c.toNat := by
          omega
        have hchar : Char.ofNat (c.toNat / 4096 * 4096 + c.toNat / 64 % 64 * 64 + c.toNat % 64) = c := by
          rw [he, Char.ofNat_toNat]
        rw [utf8DecodeAux.eq_def]
        simp [utf8DecodeOne, hb1, hb2, hb3, hc2, hc3, hv, hchar]
      · have hb1 : ¬ (240 + c.toNat / 262144 < 128) := by omega
        have hb2 : ¬ (192 ≤ 240 + c.toNat / 262144 ∧ 240 + c.toNat / 262144 < 224) := by omega
        have hb3 : ¬ (224 ≤ 240 + c.toNat / 262144 ∧ 240 + c.toNat / 262144 < 240) := by omega
        have hb4 : 240 ≤ 240 + c.toNat / 262144 ∧ 240 + c.toNat / 262144 < 248 := by omega
        have hc2 : 128 ≤ 128 + c.toNat / 4096 % 64 ∧ 128 + c.toNat / 4096 % 64 < 192 := by omega
        have hc3 : 128 ≤ 128 + c.toNat / 64 % 64 ∧ 128 + c.toNat / 64 % 64 < 192 := by omega
        have hc4 : 128 ≤ 128 + c.toNat % 64 ∧ 128 + c.toNat % 64 < 192 := by omega
        have hv : (240 + c.toNat / 262144 - 240) * 262144 + (128 + c.toNat / 4096 % 64 - 128) * 4096 +
            (128 + c.toNat / 64 % 64 - 128) * 64 + (128 + c.toNat % 64 - 128) = c.toNat := by omega
        simp only [utf8EncodeChar, if_neg h1, if_neg h2, if_neg h3, List.cons_append,
          List.nil_append]
        have he : c.toNat / 262144 * 262144 + c.toNat / 4096 % 64 * 4096 +
            c.toNat / 64 % 64 * 64 + c.toNat % 64 = c.toNat := by omega
        have hchar : Char.ofNat (c.toNat / 262144 * 262144 + c.toNat / 4096 % 64 * 4096 +
            c.toNat / 64 % 64 * 64 + c.toNat % 64) = c := by
          rw [he, Char.ofNat_toNat]
        rw [utf8DecodeAux.eq_def]
        simp [utf8DecodeOne, hb1, hb2, hb3, hb4, hc2, hc3, hc4, hv, hchar]

theorem utf8DecodeAux_encode_list (cs : List Char) :
    utf8DecodeAux ((cs.map utf8EncodeChar).flatten) = some cs := by
  induction cs with
  | nil => rw [List.map_nil, List.flatten_nil, utf8DecodeAux.eq_def]
  | cons c rest ih =>
    simp only [List.map_cons, List.flatten_cons, utf8DecodeAux_encodeChar, ih]
    rfl

theorem utf8Decode_encode (s : String) : utf8Decode (utf8Encode s) = some s := by
  cases s with
  | mk data =>
    simp only [utf8Decode, utf8Encode, utf8DecodeAux_encode_list]
    rfl

theorem splitOnColon_ne_nil : ∀ cs : List Char, splitOnColon cs ≠ [] := by
  intro cs
  induction cs with
  | nil => simp [splitOnColon]
  | cons c rest ih =>
    simp only [splitOnColon]
    by_cases h : c = ':'
    · simp [h]
    · simp only [if_neg h]
      match hr : splitOnColon rest with
      | [] => simp
      | h0 :: t => simp

theorem splitOnColon_no_colon (cs : List Char) (h : ':' ∉ cs) : splitOnColon cs = [cs] := by
  induction cs with
  | nil => rfl
  | cons c rest ih =>
    have hc : c ≠ ':' := fun hc => h (hc ▸ List.mem_cons_self c rest)
    have hrest : ':' ∉ rest := fun hr => h (List.mem_cons_of_mem c hr)
    simp only [splitOnColon, if_neg hc, ih hrest]

theorem splitOnColon_append (a rest : List Char) (h : ':' ∉ a) :
    splitOnColon (a ++ ':' :: rest) = a :: splitOnColon rest := by
  induction a with
  | nil => simp [splitOnColon]
  | cons c a ih =>
    have hc : c ≠ ':' := fun hc => h (hc ▸ List.mem_cons_self c a)
    have ha : ':' ∉ a := fun hr => h (List.mem_cons_of_mem c hr)
    simp only [List.cons_append, splitOnColon, if_neg hc]
    rw [List.append_eq, ih ha]

theorem splitOnColon_three (a b c : List Char)
    (ha : ':' ∉ a) (hb : ':' ∉ b) (hc : ':' ∉ c) :
    splitOnColon (a ++ ':' :: (b ++ ':' :: c)) = [a, b, c] := by
  rw [splitOnColon_append a _ ha, splitOnColon_append b _ hb, splitOnColon_no_colon c hc]

theorem bytesToNat_natToBytes : ∀ n : Nat, bytesToNat (natToBytes n) = n := by
  intro n
  induction n using natToBytes.induct with
  | case1 => rw [natToBytes]; rfl
  | case2 n ih =>
    rw [natToBytes]
    simp only [bytesToNat, ih]
    omega

theorem natToBytes_lt_256 : ∀ n : Nat, ∀ b ∈ natToBytes n, b < 256 := by
  intro n
  induction n using natToBytes.induct with
  | case1 => intro b hb; simp [natToBytes] at hb
  | case2 n ih =>
    intro b hb
    rw [natToBytes] at hb
    rcases List.mem_cons.mp hb with h | h
    · omega
    · exact ih b h

theorem char_toNat_ofNat (n : Nat) (h : n < 55296) : (Char.ofNat n).toNat = n := by
  rw [Char.ofNat, dif_pos (Or.inl h)]
  rfl

theorem map_toNat_map_ofNat (bs : List Nat) (h : ∀ b ∈ bs, b < 256) :
    (bs.map (fun b => Char.ofNat b)).map Char.toNat = bs := by
  induction bs with
  | nil => rfl
  | cons b rest ih =>
    have hb : b < 256 := h b (List.mem_cons_self b rest)
    have hrest := ih (fun x hx => h x (List.mem_cons_of_mem b hx))
    simp only [List.map_cons, hrest, char_toNat_ofNat b (by omega)]

theorem dateGetTime_dateFormat (ms : Int) : dateGetTime (dateFormat ms) = JSNum.num ms := by
  have hmap := map_toNat_map_ofNat (natToBytes ms.natAbs) (natToBytes_lt_256 _)
  by_cases h : ms < 0
  · simp only [dateFormat, if_pos h]
    simp [dateGetTime, hmap, bytesToNat_natToBytes]
    rw [abs_of_neg h]
    omega
  · simp only [dateFormat, if_neg h]
    simp [dateGetTime, hmap, bytesToNat_natToBytes]
    omega

theorem stringMk_toList (s : String) : String.mk s.toList = s := by
  cases s
  rfl

theorem scanStr_escape (cs : List Char) (rest : List Char) :
    scanStr (jsonEscapeL cs ++ '"' :: rest) = some (cs, rest) := by
  induction cs with
  | nil =>
    rw [show jsonEscapeL [] = [] from rfl, List.nil_append, scanStr.eq_def]
    simp
  | cons c tail ih =>
    by_cases h : c = '"' ∨ c = '\\'
    · simp only [jsonEscapeL, List.map_cons, List.flatten_cons, escapeChar, if_pos h,
        List.cons_append, List.append_assoc]
      rw [scanStr.eq_def]
      have ih2 : scanStr ((tail.map escapeChar).flatten ++ '"' :: rest) = some (tail, rest) := ih
      simp [ih2]
    · push_neg at h
      simp only [jsonEscapeL, List.map_cons, List.flatten_cons, escapeChar,
        if_neg (by tauto : ¬ (c = '"' ∨ c = '\\')), List.cons_append, List.append_assoc,
        List.singleton_append]
      rw [scanStr.eq_def]
      have ih2 : scanStr ((tail.map escapeChar).flatten ++ '"' :: rest) = some (tail, rest) := ih
      simp [h.1, h.2, ih2, jsonEscapeL]

theorem dropLit_append (lit rest : List Char) : dropLit lit (lit ++ rest) = some rest := by
  induction lit with
  | nil => rfl
  | cons l ls ih => simp [dropLit, ih]

theorem jsonParseAuth_stringify (a : CliAuthSection) :
    jsonParseAuth (jsonStringifyAuth a) = some a := by
  obtain ⟨ty, tok, rt, ea⟩ := a
  simp only [jsonStringifyAuth, jsonParseAuth]
  rw [show (String.mk (Char.ofNat 123 ::
      (keyLit "type" ++ quoteStr ty ++ [','] ++
       keyLit "token" ++ quoteStr tok ++ [','] ++
       keyLit "refreshToken" ++ quoteStr rt ++ [','] ++
       keyLit "expiresAt" ++ quoteStr ea ++ [Char.ofNat 125]))).toList =
    (Char.ofNat 123 :: (keyLit "type" ++ ['"'])) ++
      (jsonEscapeL ty.toList ++ '"' ::
        ((',' :: (keyLit "token" ++ ['"'])) ++
          (jsonEscapeL tok.toList ++ '"' ::
            ((',' :: (keyLit "refreshToken" ++ ['"'])) ++
              (jsonEscapeL rt.toList ++ '"' ::
                ((',' :: (keyLit "expiresAt" ++ ['"'])) ++
                  (jsonEscapeL ea.toList ++ '"' :: [Char.ofNat 125]))))))) from by
    simp [keyLit, quoteStr, List.append_assoc]]
  simp only [Option.bind_eq_bind, Option.some_bind, dropLit_append, scanStr_escape]
  simp [stringMk_toList]

theorem b64encodeBytes_alphabet :
    ∀ bs : List Nat, (∀ b ∈ bs, b < 256) → ∀ ch ∈ b64encodeBytes bs, isBase64Char ch := by
  have hsx : ∀ n : Nat, n < 64 → isBase64Char (sextetChar n) := by
    intro n hn
    simp [isBase64Char, sextetVal_sextetChar n hn]
  have heq : isBase64Char '=' := by decide
  intro bs
  induction bs using b64encodeBytes.induct with
  | case1 => intro _ ch hch; simp [b64encodeBytes] at hch
  | case2 a =>
    intro hb ch hch
    have ha : a < 256 := hb a (by simp)
    simp only [b64encodeBytes, List.mem_cons, List.not_mem_nil, or_false] at hch
    rcases hch with h | h | h | h
    · exact h ▸ hsx _ (by omega)
    · exact h ▸ hsx _ (by omega)
    · exact h ▸ heq
    · exact h ▸ heq
  | case3 a b =>
    intro hb ch hch
    have ha : a < 256 := hb a (by simp)
    have hbb : b < 256 := hb b (by simp)
    simp only [b64encodeBytes, List.mem_cons, List.not_mem_nil, or_false] at hch
    rcases hch with h | h | h | h
    · exact h ▸ hsx _ (by omega)
    · exact h ▸ hsx _ (by omega)
    · exact h ▸ hsx _ (by omega)
    · exact h ▸ heq
  | case4 a b c rest ih =>
    intro hb ch hch
    have ha : a < 256 := hb a (by simp)
    have hbb : b < 256 := hb b (by simp)
    have hc : c < 256 := hb c (by simp)
    simp only [b64encodeBytes, List.mem_cons] at hch
    rcases hch with h | h | h | h | h
    · exact h ▸ hsx _ (by omega)
    · exact h ▸ hsx _ (by omega)
    · exact h ▸ hsx _ (by omega)
    · exact h ▸ hsx _ (by omega)
    · exact ih (fun x hx => hb x (by simp [hx])) ch h

theorem b64encodeBytes_no_colon_of_alphabet (bs : List Nat) (h : ∀ b ∈ bs, b < 256) :
    ':' ∉ b64encodeBytes bs := b64encodeBytes_no_colon bs h

theorem toList_mk (cs : List Char) : (String.mk cs).toList = cs := rfl

theorem decrypt_encrypt (key : String) (iv : List Nat) (pt : String)
    (hiv : ∀ b ∈ iv, b < 256) :
    decrypt key (encrypt key iv pt) = some pt := by
  have htag : ∀ b ∈ gcmTag key iv, b < 256 := by
    intro b hb
    rcases List.mem_append.mp hb with h | h
    · exact utf8Encode_lt_256 key b h
    · exact hiv b h
  have hdata := utf8Encode_lt_256 pt
  simp only [decrypt, encrypt, toList_mk]
  rw [splitOnColon_three _ _ _ (b64encodeBytes_no_colon iv hiv)
    (b64encodeBytes_no_colon _ htag) (b64encodeBytes_no_colon _ hdata)]
  simp [b64decode_encode iv hiv, b64decode_encode _ htag, b64decode_encode _ hdata,
    utf8Decode_encode pt]

/-! ### General behaviour lemmas for the token store -/

theorem loadTokens_encrypted_decrypts (env : MachineEnv) (iv : List Nat) (now : Int)
    (config : Config) (enc pt : String) (auth : CliAuthSection)
    (hCe : config.auth_encrypted = some enc)
    (hdec : decrypt (deriveKey env) enc = some pt)
    (hparse : jsonParseAuth pt = some auth) :
    loadTokensFromDisk env iv now (some config) =
      match dateGetTime auth.expiresAt with
      | JSNum.nan => (none, some config)
      | JSNum.num e =>
          if e ≤ now then (none, some config)
          else (some ⟨auth.token, auth.refreshToken, JSNum.num e⟩, some config) := by
  simp only [loadTokensFromDisk, hCe, hdec, hparse]

theorem loadTokens_decrypt_fails (env : MachineEnv) (iv : List Nat) (now : Int)
    (config : Config) (enc : String)
    (hCe : config.auth_encrypted = some enc)
    (hdec : decrypt (deriveKey env) enc = none) :
    loadTokensFromDisk env iv now (some config) = legacyLoad env iv now config (some config) := by
  simp only [loadTokensFromDisk, hCe, hdec]

theorem saveTokens_some (env : MachineEnv) (iv : List Nat) (tokens : OAuthTokens)
    (file : Option Config) (ms : Int) (hms : tokens.expiresAt = JSNum.num ms) :
    saveTokensToDisk env iv tokens file =
      some ⟨none,
        some (encrypt (deriveKey env) iv (jsonStringifyAuth
          ⟨"jwt", tokens.accessToken, tokens.refreshToken, dateFormat ms⟩)),
        (file.getD ⟨none, none, []⟩).other⟩ := by
  simp only [saveTokensToDisk, hms]

/-! ### Claim C5 — save/load round trip -/

/-- Claim C5: for every token triple with a future (hence numeric, non-NaN)
expiry, `saveTokensToDisk` followed by `loadTokensFromDisk` returns a triple
equal to the original: the token strings exactly, and the expiry exactly in
epoch milliseconds (the ISO-8601 conversion preserves epoch milliseconds on
the representable range, which the model renders as an exact round trip).
`iv` is the fresh random nonce (bytes), `now` the load-time clock. -/
theorem saveTokens_loadTokens_roundtrip
    (env : MachineEnv) (iv iv2 : List Nat) (tokens : OAuthTokens) (file : Option Config)
    (now ms : Int) (hms : tokens.expiresAt = JSNum.num ms)
    (hiv : ∀ b ∈ iv, b < 256) (hfuture : now < ms) :
    loadTokensFromDisk env iv2 now (saveTokensToDisk env iv tokens file) =
      (some tokens, saveTokensToDisk env iv tokens file) := by
  rw [saveTokens_some env iv tokens file ms hms]
  rw [loadTokens_encrypted_decrypts env iv2 now _ _ _ _ rfl
    (decrypt_encrypt _ iv _ hiv) (jsonParseAuth_stringify _)]
  simp only [dateGetTime_dateFormat]
  rw [if_neg (not_le.mpr hfuture)]
  obtain ⟨a, r, e⟩ := tokens
  simp only at hms
  rw [hms]

/-- Witness for C5 at a concrete input: a concrete triple saved into an
empty store and loaded before its expiry comes back unchanged. -/
theorem saveTokens_loadTokens_roundtrip_witness :
    loadTokensFromDisk ⟨"h", "u", "d"⟩ [] 5
        (saveTokensToDisk ⟨"h", "u", "d"⟩ [7] ⟨"acc", "ref", JSNum.num 99⟩ none) =
      (some ⟨"acc", "ref", JSNum.num 99⟩,
        saveTokensToDisk ⟨"h", "u", "d"⟩ [7] ⟨"acc", "ref", JSNum.num 99⟩ none) :=
  saveTokens_loadTokens_roundtrip ⟨"h", "u", "d"⟩ [7] [] ⟨"acc", "ref", JSNum.num 99⟩ none 5 99
    rfl (by simp) (by omega)

/-! ### Claim C6 — frame of saveTokensToDisk -/

/-- Claim C6: for every prior persisted config `C` and token triple with a
numeric expiry, a successful `saveTokensToDisk` writes exactly `C` with
`auth_encrypted` set to a three-part colon-delimited base64 encoding of the
encrypted auth record, the legacy `auth` field absent, and every other field
unchanged — so at most one of `auth`/`auth_encrypted` is present after the
write. -/
theorem saveTokens_frame_and_encoding
    (env : MachineEnv) (iv : List Nat) (tokens : OAuthTokens) (C : Config) (ms : Int)
    (hms : tokens.expiresAt = JSNum.num ms) (hiv : ∀ b ∈ iv, b < 256) :
    ∃ enc : String,
      saveTokensToDisk env iv tokens (some C) =
        some ⟨none, some enc, C.other⟩ ∧
      ∃ p1 p2 p3 : List Char,
        enc.toList = p1 ++ ':' :: (p2 ++ ':' :: p3) ∧
        ':' ∉ p1 ∧ ':' ∉ p2 ∧ ':' ∉ p3 ∧
        (∀ ch ∈ p1, isBase64Char ch) ∧ (∀ ch ∈ p2, isBase64Char ch) ∧
        (∀ ch ∈ p3, isBase64Char ch) ∧
        decrypt (deriveKey env) enc = some (jsonStringifyAuth
          ⟨"jwt", tokens.accessToken, tokens.refreshToken, dateFormat ms⟩) := by
  have htag : ∀ b ∈ gcmTag (deriveKey env) iv, b < 256 := by
    intro b hb
    rcases List.mem_append.mp hb with h | h
    · exact utf8Encode_lt_256 _ b h
    · exact hiv b h
  have hdata := utf8Encode_lt_256 (jsonStringifyAuth
    ⟨"jwt", tokens.accessToken, tokens.refreshToken, dateFormat ms⟩)
  refine ⟨encrypt (deriveKey env) iv (jsonStringifyAuth
    ⟨"jwt", tokens.accessToken, tokens.refreshToken, dateFormat ms⟩), ?_,
    b64encodeBytes iv, b64encodeBytes (gcmTag (deriveKey env) iv),
    b64encodeBytes (utf8Encode (jsonStringifyAuth
      ⟨"jwt", tokens.accessToken, tokens.refreshToken, dateFormat ms⟩)), ?_, ?_, ?_, ?_,
    ?_, ?_, ?_, ?_⟩
  · rw [saveTokens_some env iv tokens (some C) ms hms]
    rfl
  · rfl
  · exact b64encodeBytes_no_colon iv hiv
  · exact b64encodeBytes_no_colon _ htag
  · exact b64encodeBytes_no_colon _ hdata
  · exact b64encodeBytes_alphabet iv hiv
  · exact b64encodeBytes_alphabet _ htag
  · exact b64encodeBytes_alphabet _ hdata
  · exact decrypt_encrypt _ iv _ hiv

/-- Witness for C6 at a concrete input: saving over a config that still has
a legacy auth section and one other field. -/
theorem saveTokens_frame_and_encoding_witness :
    ∃ enc : String,
      saveTokensToDisk ⟨"h2", "u2", "d2"⟩ [1, 2] ⟨"a", "r", JSNum.num 5⟩
          (some ⟨some ⟨"jwt", "olda", "oldr", "date"⟩, none, [("projects", "p1")]⟩) =
        some ⟨none, some enc, [("projects", "p1")]⟩ ∧
      ∃ p1 p2 p3 : List Char,
        enc.toList = p1 ++ ':' :: (p2 ++ ':' :: p3) ∧
        ':' ∉ p1 ∧ ':' ∉ p2 ∧ ':' ∉ p3 ∧
        (∀ ch ∈ p1, isBase64Char ch) ∧ (∀ ch ∈ p2, isBase64Char ch) ∧
        (∀ ch ∈ p3, isBase64Char ch) ∧
        decrypt (deriveKey ⟨"h2", "u2", "d2"⟩) enc = some (jsonStringifyAuth
          ⟨"jwt", "a", "r", dateFormat 5⟩) := by
  have h := saveTokens_frame_and_encoding ⟨"h2", "u2", "d2"⟩ [1, 2] ⟨"a", "r", JSNum.num 5⟩
    ⟨some ⟨"jwt", "olda", "oldr", "date"⟩, none, [("projects", "p1")]⟩ 5 rfl (by decide)
  exact h

/-! ### Claim C8 — legacy auto-migration -/

/-- Claim C8: for every config holding only a legacy plaintext auth section
with type tag "jwt", non-empty tokens and a valid future expiry,
`loadTokensFromDisk` returns that triple AND the write it performs through
the save path removes the plaintext `auth` field and adds `auth_encrypted`
(other fields preserved). -/
theorem loadTokens_legacy_migrates
    (env : MachineEnv) (iv : List Nat) (now : Int) (C : Config)
    (a r ea : String) (e : Int)
    (hC : C.auth = some ⟨"jwt", a, r, ea⟩) (hCe : C.auth_encrypted = none)
    (ha : a ≠ "") (hr : r ≠ "") (hdate : dateGetTime ea = JSNum.num e) (hfut : now < e) :
    loadTokensFromDisk env iv now (some C) =
      (some ⟨a, r, JSNum.num e⟩,
        some ⟨none,
          some (encrypt (deriveKey env) iv (jsonStringifyAuth ⟨"jwt", a, r, dateFormat e⟩)),
          C.other⟩) := by
  simp only [loadTokensFromDisk, hCe, legacyLoad, hC]
  rw [if_neg (by simp [ha, hr])]
  simp only [hdate]
  rw [if_neg (not_le.mpr hfut)]
  rw [saveTokens_some env iv ⟨a, r, JSNum.num e⟩ (some C) e rfl]
  rfl

/-- Witness for C8 at a concrete input: a legacy-only config with a future
expiry is loaded and migrated. -/
theorem loadTokens_legacy_migrates_witness :
    loadTokensFromDisk ⟨"h3", "u3", "d3"⟩ [9] 10
        (some ⟨some ⟨"jwt", "la", "lr", dateFormat 50⟩, none, [("k", "v")]⟩) =
      (some ⟨"la", "lr", JSNum.num 50⟩,
        some ⟨none,
          some (encrypt (deriveKey ⟨"h3", "u3", "d3"⟩) [9]
            (jsonStringifyAuth ⟨"jwt", "la", "lr", dateFormat 50⟩)),
          [("k", "v")]⟩) :=
  loadTokens_legacy_migrates ⟨"h3", "u3", "d3"⟩ [9] 10
    ⟨some ⟨"jwt", "la", "lr", dateFormat 50⟩, none, [("k", "v")]⟩
    "la" "lr" (dateFormat 50) 50 rfl rfl (by decide) (by decide)
    (dateGetTime_dateFormat 50) (by omega)

/-! ### Claim C3 — the encrypted read path -/

/-- Claim C3 (amended): for every config whose encrypted auth field decrypts
successfully and whose decrypted text parses as the auth record,
`loadTokensFromDisk` returns the record's triple if and only if the expiry
is a valid (numeric) timestamp strictly in the future — the type tag is NOT
examined on this path; with an invalid or non-future expiry it returns no
tokens; and on decryption failure it falls through to the legacy plaintext
path instead of failing. -/
theorem loadTokens_encrypted_no_type_check
    (env : MachineEnv) (iv : List Nat) (now : Int) (config : Config) (enc : String)
    (hCe : config.auth_encrypted = some enc) :
    (∀ pt auth, decrypt (deriveKey env) enc = some pt → jsonParseAuth pt = some auth →
      (∀ e : Int, dateGetTime auth.expiresAt = JSNum.num e → now < e →
        loadTokensFromDisk env iv now (some config) =
          (some ⟨auth.token, auth.refreshToken, JSNum.num e⟩, some config)) ∧
      (∀ e : Int, dateGetTime auth.expiresAt = JSNum.num e → e ≤ now →
        loadTokensFromDisk env iv now (some config) = (none, some config)) ∧
      (dateGetTime auth.expiresAt = JSNum.nan →
        loadTokensFromDisk env iv now (some config) = (none, some config))) ∧
    (decrypt (deriveKey env) enc = none →
      loadTokensFromDisk env iv now (some config) = legacyLoad env iv now config (some config)) := by
  constructor
  · intro pt auth hdec hparse
    refine ⟨?_, ?_, ?_⟩
    · intro e hdate hfut
      rw [loadTokens_encrypted_decrypts env iv now config enc pt auth hCe hdec hparse]
      simp only [hdate]
      rw [if_neg (not_le.mpr hfut)]
    · intro e hdate hpast
      rw [loadTokens_encrypted_decrypts env iv now config enc pt auth hCe hdec hparse]
      simp only [hdate]
      rw [if_pos hpast]
    · intro hnan
      rw [loadTokens_encrypted_decrypts env iv now config enc pt auth hCe hdec hparse]
      simp only [hnan]
  · intro hdec
    exact loadTokens_decrypt_fails env iv now config enc hCe hdec

/-- Counterexample to claim C3 as stated: a config whose encrypted field
decrypts to a record with type tag "api-key" (≠ "jwt") and a future expiry;
`loadTokensFromDisk` nevertheless returns the token triple, so the claimed
"returns the triple only if the type tag equals the marker" is false. -/
theorem loadTokens_encrypted_type_tag_cex :
    decrypt (deriveKey cexEnv) cexEnc = some (jsonStringifyAuth cexAuth) ∧
    jsonParseAuth (jsonStringifyAuth cexAuth) = some cexAuth ∧
    cexAuth.type ≠ "jwt" ∧
    (loadTokensFromDisk cexEnv [] 0 (some cexConfig)).1 =
      some ⟨"tok", "ref", JSNum.num 1000⟩ := by
  have hdec : decrypt (deriveKey cexEnv) cexEnc = some (jsonStringifyAuth cexAuth) :=
    decrypt_encrypt _ [] _ (by simp)
  refine ⟨hdec, jsonParseAuth_stringify _, by decide, ?_⟩
  rw [loadTokens_encrypted_decrypts cexEnv [] 0 cexConfig cexEnc _ cexAuth rfl hdec
    (jsonParseAuth_stringify _)]
  have hdate : dateGetTime cexAuth.expiresAt = JSNum.num 1000 := dateGetTime_dateFormat 1000
  simp only [hdate]
  rw [if_neg (by omega : ¬ (1000 : Int) ≤ 0)]
  rfl

/-- Witness for the amended C3 theorem at a concrete input: an encrypted
record (type tag "jwt") with a future expiry loads, and a config whose
encrypted field is garbage (no colons) falls through to the legacy path. -/
theorem loadTokens_encrypted_no_type_check_witness :
    loadTokensFromDisk ⟨"h4", "u4", "d4"⟩ [] 3
        (some ⟨none, some (encrypt (deriveKey ⟨"h4", "u4", "d4"⟩) []
          (jsonStringifyAuth ⟨"jwt", "wa", "wr", dateFormat 44⟩)), []⟩) =
      (some ⟨"wa", "wr", JSNum.num 44⟩,
        some ⟨none, some (encrypt (deriveKey ⟨"h4", "u4", "d4"⟩) []
          (jsonStringifyAuth ⟨"jwt", "wa", "wr", dateFormat 44⟩)), []⟩) ∧
    loadTokensFromDisk ⟨"h4", "u4", "d4"⟩ [] 3 (some ⟨none, some "garbage", []⟩) =
      legacyLoad ⟨"h4", "u4", "d4"⟩ [] 3 ⟨none, some "garbage", []⟩
        (some ⟨none, some "garbage", []⟩) := by
  constructor
  · exact ((loadTokens_encrypted_no_type_check ⟨"h4", "u4", "d4"⟩ [] 3
      ⟨none, some (encrypt (deriveKey ⟨"h4", "u4", "d4"⟩) []
        (jsonStringifyAuth ⟨"jwt", "wa", "wr", dateFormat 44⟩)), []⟩
      (encrypt (deriveKey ⟨"h4", "u4", "d4"⟩) []
        (jsonStringifyAuth ⟨"jwt", "wa", "wr", dateFormat 44⟩)) rfl).1
      (jsonStringifyAuth ⟨"jwt", "wa", "wr", dateFormat 44⟩)
      ⟨"jwt", "wa", "wr", dateFormat 44⟩
      (decrypt_encrypt _ [] _ (by simp)) (jsonParseAuth_stringify _)).1
      44 (dateGetTime_dateFormat 44) (by omega)
  · exact (loadTokens_encrypted_no_type_check ⟨"h4", "u4", "d4"⟩ [] 3
      ⟨none, some "garbage", []⟩ "garbage" rfl).2 (by decide)

theorem flowStep_inv (sessionId : String) (st : FlowState) (ev : FlowEvent)
    (h : FlowInv st) : FlowInv (flowStep sessionId st ev) := by
  obtain ⟨h1, h2⟩ := h
  cases ev with
  | timerFires =>
    simp only [flowStep, handleTimeout]
    by_cases hs : st.settled
    · simp only [if_pos hs]
      exact ⟨h1, h2⟩
    · have h0 : st.settlements.length = 0 := by simpa [hs] using h2
      simp only [if_neg hs]
      refine ⟨rfl, ?_⟩
      simp [h0]
  | callback now req =>
    simp only [flowStep, handleCallbackRequest]
    by_cases hc : st.serverClosed
    · simp only [if_pos hc]
      exact ⟨h1, h2⟩
    · have hs : st.settled = false := by
        rw [← h1]
        simpa using hc
      have h0 : st.settlements.length = 0 := by simpa [hs] using h2
      simp only [if_neg hc]
      by_cases hp : req.path ≠ "/callback"
      · simp only [if_pos hp]
        exact ⟨h1, h2⟩
      · simp only [if_neg hp]
        by_cases ha : MAX_CALLBACK_ATTEMPTS < st.callbackAttempts + 1
        · simp only [if_pos ha]
          exact ⟨h1, h2⟩
        · simp only [if_neg ha]
          by_cases hm : req.session ≠ some sessionId
          · simp only [if_pos hm]
            exact ⟨h1, h2⟩
          · simp only [if_neg hm]
            by_cases he : truthy req.errorParam
            · simp only [if_pos he]
              exact ⟨rfl, by simp [h0]⟩
            · simp only [if_neg he]
              by_cases ht : ¬ truthy req.accessToken ∨ ¬ truthy req.refreshToken ∨
                  ¬ truthy req.expiresIn
              · simp only [if_pos ht]
                exact ⟨rfl, by simp [h0]⟩
              · simp only [if_neg ht]
                exact ⟨rfl, by simp [h0]⟩

theorem runFlow_inv (sessionId : String) (events : List FlowEvent) :
    FlowInv (runFlow sessionId events) := by
  suffices h : ∀ st : FlowState, FlowInv st →
      FlowInv (events.foldl (flowStep sessionId) st) by
    exact h initialFlowState ⟨rfl, rfl⟩
  induction events with
  | nil => intro st h; exact h
  | cons ev rest ih =>
    intro st h
    exact ih _ (flowStep_inv sessionId st ev h)

/-- Claim C9: over every event sequence of one flow, at most one of
{success, provider-error, missing-parameters, timeout} settles the promise,
and whenever a settlement exists the listener is closed (every terminal
path, the timeout included, closes it).  Once the settled flag is set no
further resolution happens, which is what makes double settlement
impossible. -/
theorem browserOAuthFlow_single_settlement (sessionId : String) (events : List FlowEvent) :
    (runFlow sessionId events).settlements.length ≤ 1 ∧
    ((runFlow sessionId events).settlements ≠ [] →
      (runFlow sessionId events).serverClosed = true ∧
      (runFlow sessionId events).settled = true) := by
  obtain ⟨h1, h2⟩ := runFlow_inv sessionId events
  constructor
  · rw [h2]
    by_cases hs : (runFlow sessionId events).settled <;> simp [hs]
  · intro hne
    by_cases hs : (runFlow sessionId events).settled
    · exact ⟨h1 ▸ hs, hs⟩
    · exfalso
      have hs0 : (runFlow sessionId events).settled = false := by simpa using hs
      rw [hs0] at h2
      simp only [Bool.false_eq_true, if_false] at h2
      exact hne (List.length_eq_zero.mp h2)

/-! ### Claims C1, C2, C4, C10 -/

/-- Claim C1 (evidence of the code bug): on a non-success identity-endpoint
response, `refreshAccessToken` throws an error that embeds the full response
body text after the status code — at the failing input of a 401 response
with body "Unauthorized" the message is literally
`Token refresh failed (401): Unauthorized`, and in general the thrown
message is the concatenation ending in the body.  The repository's own test
(src/src/auth/__tests__/oauth.test.ts, "throws on non-ok response with safe
message") requires the body NOT to appear. -/
theorem refreshAccessToken_error_embeds_body :
    refreshAccessToken 0 ⟨false, 401, "Unauthorized", "", "", 0⟩ =
      Except.error ("Token refresh failed (401): " ++ "Unauthorized") ∧
    (∀ now : Int, ∀ res : RefreshHttpResponse, res.ok = false →
      refreshAccessToken now res =
        Except.error ("Token refresh failed (" ++ toString res.status ++ "): " ++ res.bodyText)) := by
  constructor
  · rfl
  · intro now res h
    simp [refreshAccessToken, h]

/-- Claim C2 (evidence of the code bug): the oauth module accepts an
`ULINK_SUPABASE_URL` override with a plaintext http:// scheme at load time
(no hard failure exists on that path), and the refresh request URL built
from it is a plaintext http:// endpoint; the HTTPS-only load check exists
only for the resource-API base `ULINK_API_URL`.  The repository's own test
(src/src/auth/__tests__/oauth.test.ts, "rejects HTTP SUPABASE_URL at module
load") requires the load to fail. -/
theorem supabaseUrl_http_override_accepted :
    supabaseUrlInit (some "http://evil.com") = Except.ok "http://evil.com" ∧
    refreshUrl "http://evil.com" = "http://evil.com/auth/v1/token?grant_type=refresh_token" ∧
    jsStartsWith (refreshUrl "http://evil.com") "https://" = false ∧
    jsStartsWith (refreshUrl "http://evil.com") "http://" = true ∧
    apiBaseInit (some "http://evil.com") =
      Except.error "ULINK_API_URL must use HTTPS to protect credentials in transit" := by
  refine ⟨rfl, rfl, by decide, by decide, ?_⟩
  have h : jsStartsWith "http://evil.com" "https://" = false := by decide
  simp [apiBaseInit, h]

/-- Claim C4: during one flow, a /callback request with a mismatched session
id is answered 400 and does not settle the flow (state otherwise unchanged,
listener still open); a subsequent callback with the correct session id and
complete token parameters still settles the flow as succeeded; and a
callback arriving after the 5 allowed attempts (the 6th) is answered 429
and not processed further (nothing settles). -/
theorem browserOAuthFlow_csrf_and_rate_limit (sessionId : String) (st : FlowState)
    (now now2 : Int) (badReq goodReq : CallbackRequest)
    (hopen : st.serverClosed = false)
    (hatt : st.callbackAttempts + 2 ≤ MAX_CALLBACK_ATTEMPTS)
    (hbp : badReq.path = "/callback") (hbs : badReq.session ≠ some sessionId)
    (hgp : goodReq.path = "/callback") (hgs : goodReq.session = some sessionId)
    (hge : ¬ truthy goodReq.errorParam)
    (hga : truthy goodReq.accessToken) (hgr : truthy goodReq.refreshToken)
    (hgx : truthy goodReq.expiresIn) :
    (handleCallbackRequest sessionId now st badReq).2 = some 400 ∧
    (handleCallbackRequest sessionId now st badReq).1.settlements = st.settlements ∧
    (handleCallbackRequest sessionId now st badReq).1.settled = st.settled ∧
    (handleCallbackRequest sessionId now st badReq).1.serverClosed = false ∧
    (handleCallbackRequest sessionId now2
        (handleCallbackRequest sessionId now st badReq).1 goodReq).2 = some 200 ∧
    (handleCallbackRequest sessionId now2
        (handleCallbackRequest sessionId now st badReq).1 goodReq).1.settlements =
      st.settlements ++ [FlowResult.success
        ⟨goodReq.accessToken.getD "", goodReq.refreshToken.getD "",
          JSNum.add (JSNum.num now2)
            (JSNum.mul (parseIntJS (goodReq.expiresIn.getD "")) (JSNum.num 1000))⟩] ∧
    (∀ st6 : FlowState, ∀ req : CallbackRequest, st6.serverClosed = false →
      req.path = "/callback" → MAX_CALLBACK_ATTEMPTS ≤ st6.callbackAttempts →
      (handleCallbackRequest sessionId now st6 req).2 = some 429 ∧
      (handleCallbackRequest sessionId now st6 req).1.settlements = st6.settlements ∧
      (handleCallbackRequest sessionId now st6 req).1.settled = st6.settled) := by
  have hbad : handleCallbackRequest sessionId now st badReq =
      ({ st with callbackAttempts := st.callbackAttempts + 1 }, some 400) := by
    have hb1 : ¬ (MAX_CALLBACK_ATTEMPTS < st.callbackAttempts + 1) := by
      simp only [MAX_CALLBACK_ATTEMPTS] at hatt ⊢
      omega
    simp [handleCallbackRequest, hopen, hbp, hbs, hb1]
  have hgood : handleCallbackRequest sessionId now2
      ({ st with callbackAttempts := st.callbackAttempts + 1 }) goodReq =
      ({ st with
          callbackAttempts := st.callbackAttempts + 1 + 1
          settled := true
          serverClosed := true
          settlements := st.settlements ++ [FlowResult.success
            ⟨goodReq.accessToken.getD "", goodReq.refreshToken.getD "",
              JSNum.add (JSNum.num now2)
                (JSNum.mul (parseIntJS (goodReq.expiresIn.getD "")) (JSNum.num 1000))⟩] },
        some 200) := by
    have hb2 : ¬ (MAX_CALLBACK_ATTEMPTS < st.callbackAttempts + 1 + 1) := by
      simp only [MAX_CALLBACK_ATTEMPTS] at hatt ⊢
      omega
    have hnm : ¬ (goodReq.session ≠ some sessionId) := by simp [hgs]
    simp [handleCallbackRequest, hopen, hgp, hnm, hge, hga, hgr, hgx, hb2]
  refine ⟨by simp [hbad], by simp [hbad], by simp [hbad], by simp [hbad, hopen], ?_, ?_, ?_⟩
  · rw [hbad]
    simp only [hgood]
  · rw [hbad]
    simp only [hgood]
  · intro st6 req hopen6 hp6 hsix
    have hover : MAX_CALLBACK_ATTEMPTS < st6.callbackAttempts + 1 := by omega
    simp [handleCallbackRequest, hopen6, hp6, hover]

/-- Witness for C4 at concrete inputs: from a fresh flow, a callback with a
wrong session id gets 400 and settles nothing, the following correct
callback settles success, and a callback at attempt count 5 gets 429. -/
theorem browserOAuthFlow_csrf_and_rate_limit_witness :
    (handleCallbackRequest "sid" 0 initialFlowState
      ⟨"/callback", some "evil", none, none, none, none, none⟩).2 = some 400 ∧
    (handleCallbackRequest "sid" 7
        (handleCallbackRequest "sid" 0 initialFlowState
          ⟨"/callback", some "evil", none, none, none, none, none⟩).1
        ⟨"/callback", some "sid", none, none, some "at", some "rt", some "60"⟩).1.settlements =
      [FlowResult.success ⟨"at", "rt", JSNum.num 60007⟩] ∧
    (handleCallbackRequest "sid" 0 ⟨false, false, 5, []⟩
      ⟨"/callback", some "sid", none, none, some "at", some "rt", some "60"⟩).2 = some 429 := by
  have h := browserOAuthFlow_csrf_and_rate_limit "sid" initialFlowState 0 7
    ⟨"/callback", some "evil", none, none, none, none, none⟩
    ⟨"/callback", some "sid", none, none, some "at", some "rt", some "60"⟩
    rfl (by decide) rfl (by decide) rfl rfl (by decide) (by decide) (by decide) (by decide)
  refine ⟨h.1, ?_, (h.2.2.2.2.2.2 ⟨false, false, 5, []⟩
    ⟨"/callback", some "sid", none, none, some "at", some "rt", some "60"⟩
    rfl rfl (by decide)).1⟩
  rw [h.2.2.2.2.2.1]
  have : parseIntJS "60" = JSNum.num 60 := by decide
  simp [initialFlowState, this, JSNum.add, JSNum.mul]

/-- Claim C10: a callback whose session matches and whose three token
parameters are present and non-empty, but whose expires_in does not begin
with a decimal numeral (`parseInt` yields NaN), settles the flow as
SUCCEEDED with `expiresAt = NaN` — not as the missing-parameters failure;
and such a NaN expiry never satisfies the request client's 30-second
proactive-refresh comparison, since every JS comparison against NaN is
false. -/
theorem browserOAuthFlow_nan_expiry (sessionId : String) (st : FlowState)
    (now : Int) (req : CallbackRequest)
    (hopen : st.serverClosed = false)
    (hatt : st.callbackAttempts < MAX_CALLBACK_ATTEMPTS)
    (hp : req.path = "/callback") (hs : req.session = some sessionId)
    (he : ¬ truthy req.errorParam)
    (ha : truthy req.accessToken) (hr : truthy req.refreshToken)
    (hx : truthy req.expiresIn)
    (hnan : parseIntJS (req.expiresIn.getD "") = JSNum.nan) :
    (handleCallbackRequest sessionId now st req).2 = some 200 ∧
    (handleCallbackRequest sessionId now st req).1.settlements =
      st.settlements ++ [FlowResult.success
        ⟨req.accessToken.getD "", req.refreshToken.getD "", JSNum.nan⟩] ∧
    (∀ t : OAuthTokens, t.expiresAt = JSNum.nan → ∀ now2 : Int,
      needsProactiveRefresh t now2 = false) := by
  have hb1 : ¬ (MAX_CALLBACK_ATTEMPTS < st.callbackAttempts + 1) := by omega
  have hnm : ¬ (req.session ≠ some sessionId) := by simp [hs]
  refine ⟨?_, ?_, ?_⟩
  · simp [handleCallbackRequest, hopen, hp, hnm, he, ha, hr, hx, hb1]
  · simp [handleCallbackRequest, hopen, hp, hnm, he, ha, hr, hx, hb1, hnan, JSNum.mul, JSNum.add]
  · intro t ht now2
    simp [needsProactiveRefresh, ht, JSNum.sub, JSNum.lt]

/-- Witness for C10 at a concrete input: expires_in = "abc" settles success
with a NaN expiry, and that token never triggers the proactive refresh. -/
theorem browserOAuthFlow_nan_expiry_witness :
    (handleCallbackRequest "sid" 1000 initialFlowState
      ⟨"/callback", some "sid", none, none, some "at", some "rt", some "abc"⟩).2 = some 200 ∧
    (handleCallbackRequest "sid" 1000 initialFlowState
      ⟨"/callback", some "sid", none, none, some "at", some "rt", some "abc"⟩).1.settlements =
      [FlowResult.success ⟨"at", "rt", JSNum.nan⟩] ∧
    needsProactiveRefresh ⟨"at", "rt", JSNum.nan⟩ 999999999 = false := by
  have h := browserOAuthFlow_nan_expiry "sid" initialFlowState 1000
    ⟨"/callback", some "sid", none, none, some "at", some "rt", some "abc"⟩
    rfl (by decide) rfl (by decide) (by decide) (by decide) (by decide) (by decide) (by decide)
  exact ⟨h.1, by simpa [initialFlowState] using h.2.1, h.2.2 _ rfl 999999999⟩

end Ulink
